import Mathlib

/-!
Verification of the code-style fingerprinting engine of the `skills`
repository (skills/code-style-imitator/scripts/analyze_style.py and
analyze_project.py), shallowly embedded in Lean.

Modelling conventions:
* Python floats are modelled as exact rationals (ℚ); Python `round(x, n)`
  is modelled as round-half-to-even of `x * 10^n` divided by `10^n`.
* Python dicts are modelled as insertion-ordered association lists.
* Python `set` iteration order is unspecified; it is modelled by
  `List.dedup` on the list of observed styles.  Python `sorted` is stable;
  it is modelled by the stable `List.insertionSort`.
* `ast.parse` is an external parser: a file's content carries its raw text
  together with the parse result (`none` models a `SyntaxError`).
* `ast.walk` yields every node of the tree; its order (breadth-first in
  CPython) only feeds order-insensitive counters here, and is modelled by
  a depth-first enumeration `walkNodes`.
* Only the node kinds inspected by the analyzer are modelled: function
  definitions, class definitions, assignments, expression statements, and
  a generic compound statement carrying a nested body.  `ast.walk` also
  yields expression nodes, but none of the analyzer's `isinstance` checks
  match an expression node, so they contribute nothing.
-/

/-- Characters that Python `str.strip` / `str.lstrip` remove. -/
def pyIsSpace (c : Char) : Bool :=
  c = ' ' || c = '\t' || c = '\n' || c = '\r' || c = '\x0b' || c = '\x0c'

/-- A cased character (ASCII letters; Python identifiers in this analysis). -/
def pyCased (c : Char) : Bool := c.isUpper || c.isLower

/-- Python `str.isupper`: at least one cased character and no lowercase one. -/
def pyIsUpperL (cs : List Char) : Bool :=
  cs.any pyCased && cs.all (fun c => !pyCased c || c.isUpper)

/-- Python `str.islower`: at least one cased character and no uppercase one. -/
def pyIsLowerL (cs : List Char) : Bool :=
  cs.any pyCased && cs.all (fun c => !pyCased c || c.isLower)

/-- Python `str.isupper` on a Lean string. -/
def pyIsUpper (s : String) : Bool := pyIsUpperL s.toList

/-- Python `str.islower` on a Lean string. -/
def pyIsLower (s : String) : Bool := pyIsLowerL s.toList

/-- Does a character list begin with an underscore? -/
def startsUnderscoreCore : List Char → Bool
  | c :: _ => c = '_'
  | [] => false

/-- Python `name.startswith(underscore)`. -/
def startsUnderscore (s : String) : Bool := startsUnderscoreCore s.toList

/-- Python `name[1:]`. -/
def strTail (s : String) : String := ⟨s.toList.drop 1⟩

/-- Round-half-to-even to an integer, the rounding of Python `round`. -/
def rhe (q : ℚ) : ℤ :=
  if q - ⌊q⌋ = 1 / 2 then (if Even ⌊q⌋ then ⌊q⌋ else ⌊q⌋ + 1) else round q

/-- Python `round(q, p)` on the exact rational value. -/
def pyRound (p : ℕ) (q : ℚ) : ℚ := (rhe (q * 10 ^ p) : ℚ) / 10 ^ p

/-- The classification chain of `detect_naming_style`, over the character
list of the identifier. -/
def detectNamingCore : List Char → String
  | [] => "unknown"
  | c :: cs =>
    -- Check for UPPER_SNAKE_CASE (constants)
    if pyIsUpperL (c :: cs) && (c :: cs).contains '_' then "UPPER_SNAKE_CASE"
    -- Check for snake_case
    else if pyIsLowerL (c :: cs) && (c :: cs).contains '_' then "snake_case"
    -- Check for PascalCase
    else if c.isUpper && !(c :: cs).contains '_' then "PascalCase"
    -- Check for camelCase
    else if c.isLower && !(c :: cs).contains '_' && (c :: cs).any Char.isUpper then
      "camelCase"
    -- Check for _private (leading underscore)
    else if c = '_' then "_private"
    else "other"

/-- `detect_naming_style` from analyze_style.py: classify one identifier. -/
def detect_naming_style (name : String) : String := detectNamingCore name.toList

/-- A positional parameter of a function definition: its name and whether it
carries a type annotation (only presence is inspected by the analyzer). -/
structure Arg where
  arg : String
  ann : Bool
deriving DecidableEq, Repr

/-- An assignment target: a simple name (`ast.Name`) or anything else. -/
inductive Target where
  | name (id : String)
  | otherTarget
deriving DecidableEq, Repr

/-- The value of an expression statement, as far as the docstring check
inspects it: a string constant, another constant, or any other expression. -/
inductive ExprVal where
  | constantStr
  | constantOther
  | otherVal
deriving DecidableEq, Repr

/-- Python statements, covering the node kinds the analyzer inspects.
`other` stands for any other statement, carrying its nested body (empty for
simple statements such as `pass` or `return`). -/
inductive Stmt where
  | functionDef (name : String) (args : List Arg) (returns : Bool) (body : List Stmt)
  | classDef (name : String) (body : List Stmt)
  | assign (targets : List Target)
  | exprStmt (value : ExprVal)
  | other (body : List Stmt)

/-- All nodes of a statement list, the model of `ast.walk` (which yields
every node; the traversal order only feeds order-insensitive tallies). -/
def walkNodes : List Stmt → List Stmt
  | [] => []
  | .functionDef n a r body :: rest =>
      .functionDef n a r body :: (walkNodes body ++ walkNodes rest)
  | .classDef n body :: rest => .classDef n body :: (walkNodes body ++ walkNodes rest)
  | .other body :: rest => .other body :: (walkNodes body ++ walkNodes rest)
  | s :: rest => s :: walkNodes rest

/-- Per-node contribution to `func_styles`: the function name's style. -/
def nodeFuncStyles : Stmt → List String
  | .functionDef name _ _ _ => [detect_naming_style name]
  | _ => []

/-- Per-node contribution to `var_styles`: positional-parameter names of a
function definition, and non-uppercase simple assignment targets. -/
def nodeVarStyles : Stmt → List String
  | .functionDef _ args _ _ => args.map (fun a => detect_naming_style a.arg)
  | .assign targets =>
      targets.flatMap (fun t =>
        match t with
        | .name id => if pyIsUpper id then [] else [detect_naming_style id]
        | .otherTarget => [])
  | _ => []

/-- Per-node contribution to `class_styles`. -/
def nodeClassStyles : Stmt → List String
  | .classDef name _ => [detect_naming_style name]
  | _ => []

/-- Per-node contribution to `const_styles`: uppercase simple assignment
targets. -/
def nodeConstStyles : Stmt → List String
  | .assign targets =>
      targets.flatMap (fun t =>
        match t with
        | .name id => if pyIsUpper id then [detect_naming_style id] else []
        | .otherTarget => [])
  | _ => []

/-- Per-node contribution to `private_styles`: the stripped name's style for
function names and simple assignment targets with a leading underscore. -/
def nodePrivateStyles : Stmt → List String
  | .functionDef name _ _ _ =>
      if startsUnderscore name then [detect_naming_style (strTail name)] else []
  | .assign targets =>
      targets.flatMap (fun t =>
        match t with
        | .name id =>
            if startsUnderscore id then [detect_naming_style (strTail id)] else []
        | .otherTarget => [])
  | _ => []

/-- The `func_styles` list accumulated by `analyze_naming_python`. -/
def func_styles (tree : List Stmt) : List String :=
  (walkNodes tree).flatMap nodeFuncStyles

/-- The `var_styles` list accumulated by `analyze_naming_python`. -/
def var_styles (tree : List Stmt) : List String :=
  (walkNodes tree).flatMap nodeVarStyles

/-- The `class_styles` list accumulated by `analyze_naming_python`. -/
def class_styles (tree : List Stmt) : List String :=
  (walkNodes tree).flatMap nodeClassStyles

/-- The `const_styles` list accumulated by `analyze_naming_python`. -/
def const_styles (tree : List Stmt) : List String :=
  (walkNodes tree).flatMap nodeConstStyles

/-- The `private_styles` list accumulated by `analyze_naming_python`. -/
def private_styles (tree : List Stmt) : List String :=
  (walkNodes tree).flatMap nodePrivateStyles

/-- A naming distribution: a Python dict from style tag to proportion,
modelled as an insertion-ordered association list. -/
abbrev StyleDist := List (String × ℚ)

/-- `calc_distribution` from analyze_style.py: proportion of each style,
rounded to two decimals, sorted by descending count (Python set order is
modelled by `List.dedup`, the stable sort by `List.insertionSort`). -/
def calc_distribution (styles : List String) : StyleDist :=
  if styles.isEmpty then []
  else
    let total : ℚ := styles.length
    let counted := styles.dedup.map (fun s => (s, (styles.filter (fun t => t = s)).length))
    let sorted := counted.insertionSort (fun a b => b.2 ≤ a.2)
    sorted.map (fun sc => (sc.1, pyRound 2 ((sc.2 : ℚ) / total)))

/-- `NamingPatterns` from analyze_style.py. -/
structure NamingPatterns where
  vars : StyleDist := []
  functions : StyleDist := []
  classes : StyleDist := []
  constants : StyleDist := []
  private_vars : StyleDist := []
deriving DecidableEq, Repr

/-- `analyze_naming_python` from analyze_style.py; `none` models a
`SyntaxError` from `ast.parse`, which yields empty patterns. -/
def analyze_naming_python (parsed : Option (List Stmt)) : NamingPatterns :=
  match parsed with
  | none => {}
  | some tree =>
    { vars := calc_distribution (var_styles tree)
      functions := calc_distribution (func_styles tree)
      classes := calc_distribution (class_styles tree)
      constants := calc_distribution (const_styles tree)
      private_vars := calc_distribution (private_styles tree) }

/-- Is a node a function definition? (`isinstance(node, ast.FunctionDef)`). -/
def isFunctionDef : Stmt → Bool
  | .functionDef _ _ _ _ => true
  | _ => false

/-- Per-node contribution to `func_lengths`: `len(node.body)`. -/
def nodeFuncLens : Stmt → List ℕ
  | .functionDef _ _ _ body => [body.length]
  | _ => []

/-- Does a function node declare a return or parameter type annotation?
(`node.returns or any(arg.annotation for arg in node.args.args)`). -/
def fnHasHint : Stmt → Bool
  | .functionDef _ args returns _ => returns || args.any (fun a => a.ann)
  | _ => false

/-- Does a function node start with a docstring? (`node.body` nonempty, its
first element an expression statement holding a string constant). -/
def fnHasDocstring : Stmt → Bool
  | .functionDef _ _ _ (.exprStmt .constantStr :: _) => true
  | _ => false

/-- The `func_lengths` list accumulated by `analyze_patterns_python`. -/
def func_lengths (tree : List Stmt) : List ℕ :=
  (walkNodes tree).flatMap nodeFuncLens

/-- The `function_count` tally of `analyze_patterns_python`. -/
def function_count (tree : List Stmt) : ℕ :=
  ((walkNodes tree).filter isFunctionDef).length

/-- The `class_count` tally of `analyze_patterns_python`. -/
def class_count (tree : List Stmt) : ℕ :=
  ((walkNodes tree).filter (fun s =>
    match s with
    | .classDef _ _ => true
    | _ => false)).length

/-- The `type_hint_usage` tally of `analyze_patterns_python`. -/
def type_hint_usage (tree : List Stmt) : ℕ :=
  ((walkNodes tree).filter fnHasHint).length

/-- The `docstring_usage` tally of `analyze_patterns_python`. -/
def docstring_usage (tree : List Stmt) : ℕ :=
  ((walkNodes tree).filter fnHasDocstring).length

/-- The structural-patterns report of `analyze_patterns_python`. -/
structure PatternsReport where
  function_count : ℕ
  class_count : ℕ
  function_length_mean : ℚ
  function_length_max : ℕ
  function_length_min : ℕ
  type_hint_count : ℕ
  type_hint_rate : ℚ
  docstring_count : ℕ
  docstring_rate : ℚ
deriving DecidableEq, Repr

/-- `analyze_patterns_python` from analyze_style.py; `none` models the empty
dict returned on a `SyntaxError`. -/
def analyze_patterns_python (parsed : Option (List Stmt)) : Option PatternsReport :=
  parsed.map (fun tree =>
    let lens := func_lengths tree
    let fc := function_count tree
    { function_count := fc
      class_count := class_count tree
      function_length_mean :=
        if lens.isEmpty then 0 else pyRound 1 ((lens.sum : ℚ) / (lens.length : ℚ))
      function_length_max := lens.foldr max 0
      function_length_min := (lens.min?).getD 0
      type_hint_count := type_hint_usage tree
      type_hint_rate :=
        if fc = 0 then 0 else pyRound 2 ((type_hint_usage tree : ℚ) / (fc : ℚ))
      docstring_count := docstring_usage tree
      docstring_rate :=
        if fc = 0 then 0 else pyRound 2 ((docstring_usage tree : ℚ) / (fc : ℚ)) })

/-- Split a character list at a separator, Python `str.split(sep)` for a
one-character separator (an empty input yields one empty field). -/
def splitChar (sep : Char) : List Char → List (List Char)
  | [] => [[]]
  | c :: rest =>
    if c = sep then [] :: splitChar sep rest
    else
      match splitChar sep rest with
      | [] => [[c]]
      | l :: ls => (c :: l) :: ls

/-- Is a line blank after `str.strip`? (`not line.strip()`). -/
def pyLineIsBlank (l : List Char) : Bool := l.all pyIsSpace

/-- Leading-whitespace length: `len(line) - len(line.lstrip())`. -/
def leadingWS (l : List Char) : ℕ := (l.takeWhile pyIsSpace).length

/-- The non-blank lines of a text (`content.split` on newline, blank lines
skipped). -/
def nonBlankLines (text : List Char) : List (List Char) :=
  (splitChar '\n' text).filter (fun l => !pyLineIsBlank l)

/-- The indented (positive leading whitespace) non-blank lines. -/
def indentedLines (text : List Char) : List (List Char) :=
  (nonBlankLines text).filter (fun l => 0 < leadingWS l)

/-- The `indentations` list of `analyze_formatting`: leading-whitespace
length of every indented non-blank line. -/
def indentationsOf (text : List Char) : List ℕ :=
  (indentedLines text).map leadingWS

/-- GCD of a list, the model of `math.gcd` applied to all elements. -/
def listGcd (l : List ℕ) : ℕ := l.foldr Nat.gcd 0

/-- `FormattingPatterns` from analyze_style.py. -/
structure FormattingPatterns where
  indentation_type : String := "unknown"
  indentation_size : ℕ := 0
  line_length_mean : ℕ := 0
  line_length_max : ℕ := 0
  quote_style : String := "unknown"
  trailing_newline : Bool := true
deriving DecidableEq, Repr

/-- The single-quote character (ASCII 39). -/
def squote : Char := Char.ofNat 39

/-- The double-quote character (ASCII 34). -/
def dquote : Char := Char.ofNat 34

/-- `analyze_formatting` from analyze_style.py.  The regex count of quoted
spans equals half the number of quote characters (each non-overlapping
leftmost match consumes exactly two quotes). -/
def analyze_formatting (text : List Char) : FormattingPatterns :=
  let inds := indentationsOf text
  let spaces_count := ((indentedLines text).filter (fun l => l.headD ' ' = ' ')).length
  let tabs_count := ((indentedLines text).filter (fun l => l.headD ' ' = '\t')).length
  let indent_type :=
    if spaces_count > 0 && tabs_count = 0 then "spaces"
    else if tabs_count > 0 && spaces_count = 0 then "tabs"
    else if spaces_count > 0 && tabs_count > 0 then "mixed"
    else "unknown"
  let indent_size :=
    if inds.isEmpty then 0
    else if 1 < inds.dedup.length then listGcd inds.dedup
    else inds.headD 0
  let line_lengths := (nonBlankLines text).map List.length
  let single_quotes := (text.count squote) / 2
  let double_quotes := (text.count dquote) / 2
  let quote_style :=
    if single_quotes > 0 && double_quotes = 0 then "single"
    else if double_quotes > 0 && single_quotes = 0 then "double"
    else if single_quotes > 0 && double_quotes > 0 then "mixed"
    else "unknown"
  { indentation_type := indent_type
    indentation_size := indent_size
    line_length_mean :=
      if line_lengths.isEmpty then 0 else line_lengths.sum / line_lengths.length
    line_length_max := line_lengths.foldr max 0
    quote_style := quote_style
    trailing_newline := text.getLast? = some '\n' }

/-- A file's content: its raw text and the result of `ast.parse` (`none`
models a `SyntaxError`; the parser itself is an external library). -/
structure PyContent where
  text : List Char
  parsed : Option (List Stmt)

/-- Python `PurePath.suffix` composed with `str.lower`: the lowercased final
extension of the path's last component (empty for dotless or dotfile
names). -/
def pathSuffixLower (p : String) : String :=
  let name := (splitChar '/' p.toList).getLastD []
  let idxs := (List.range name.length).filter (fun i => name.getD i ' ' = '.')
  match idxs.getLast? with
  | some i => if 0 < i ∧ i < name.length - 1 then ⟨(name.drop i).map Char.toLower⟩ else ""
  | none => ""

/-- `detect_language` from analyze_style.py: extension-to-language table. -/
def detect_language (p : String) : String :=
  (([ (".py", "python"), (".js", "javascript"), (".ts", "typescript"),
      (".cpp", "cpp"), (".cc", "cpp"), (".cxx", "cpp"), (".c", "c"),
      (".h", "cpp"), (".hpp", "cpp"), (".java", "java"), (".go", "go"),
      (".rs", "rust") ] : List (String × String)).lookup
    (pathSuffixLower p)).getD "unknown"

/-- `StyleReport` from analyze_style.py (the unused `examples` dict is
omitted; `patterns` is `none` when empty). -/
structure StyleReport where
  file_path : String
  language : String
  naming : NamingPatterns
  formatting : FormattingPatterns
  patterns : Option PatternsReport

/-- `analyze_file` from analyze_style.py: formatting always, naming and
structural patterns only for Python files. -/
def analyze_file (p : String) (c : PyContent) : StyleReport :=
  let language := detect_language p
  { file_path := p
    language := language
    formatting := analyze_formatting c.text
    naming := if language = "python" then analyze_naming_python c.parsed else {}
    patterns := if language = "python" then analyze_patterns_python c.parsed else none }

/-- Append one observed value to a dict-of-lists entry, the model of
`result.setdefault(key, []).append(value)` in `merge_dicts`. -/
def addEntry : List (String × List ℚ) → String → ℚ → List (String × List ℚ)
  | [], k, v => [(k, [v])]
  | kv :: rest, k, v =>
    if kv.1 = k then (kv.1, kv.2 ++ [v]) :: rest else kv :: addEntry rest k v

/-- Collect every dict's values per key, in first-occurrence key order. -/
def collectEntries (dicts : List StyleDist) : List (String × List ℚ) :=
  dicts.foldl (fun acc d => d.foldl (fun a kv => addEntry a kv.1 kv.2) acc) []

/-- `merge_dicts` from analyze_project.py: per key, the mean of the values
observed for that key, rounded to two decimals. -/
def merge_dicts (dicts : List StyleDist) : StyleDist :=
  (collectEntries dicts).map
    (fun kv => (kv.1, pyRound 2 (kv.2.sum / (kv.2.length : ℚ))))

/-- One field of `merge_naming_patterns`: drop empty per-file dicts, then
merge (an empty filtered list leaves the default empty dict). -/
def mergeField (ds : List StyleDist) : StyleDist :=
  let ne := ds.filter (fun d => !d.isEmpty)
  if ne.isEmpty then [] else merge_dicts ne

/-- `merge_naming_patterns` from analyze_project.py. -/
def merge_naming_patterns (patterns : List NamingPatterns) : NamingPatterns :=
  { vars := mergeField (patterns.map (fun p => p.vars))
    functions := mergeField (patterns.map (fun p => p.functions))
    classes := mergeField (patterns.map (fun p => p.classes))
    constants := mergeField (patterns.map (fun p => p.constants))
    private_vars := mergeField (patterns.map (fun p => p.private_vars)) }

/-- Increment a counter dict, the model of `d[k] = d.get(k, 0) + 1`. -/
def bump [BEq α] : List (α × ℕ) → α → List (α × ℕ)
  | [], k => [(k, 1)]
  | kv :: rest, k =>
    if kv.1 == k then (kv.1, kv.2 + 1) :: rest else kv :: bump rest k

/-- First key of maximal count, the model of `max(d, key=d.get)` over an
insertion-ordered counter dict. -/
def firstMax : List (α × ℕ) → Option α :=
  fun l =>
    (l.foldl
      (fun best kv =>
        match best with
        | none => some kv
        | some b => if kv.2 > b.2 then some kv else some b)
      none).map (fun kv => kv.1)

/-- `merge_formatting_patterns` from analyze_project.py. -/
def merge_formatting_patterns (patterns : List FormattingPatterns) : FormattingPatterns :=
  if patterns.isEmpty then {}
  else
    let indent_types := patterns.foldl (fun acc p => bump acc p.indentation_type) []
    let indent_sizes :=
      patterns.foldl
        (fun acc p => if p.indentation_size > 0 then bump acc p.indentation_size else acc) []
    let quote_styles := patterns.foldl (fun acc p => bump acc p.quote_style) []
    let means := patterns.map (fun p => p.line_length_mean)
    let maxs := patterns.map (fun p => p.line_length_max)
    { indentation_type := (firstMax indent_types).getD "unknown"
      indentation_size := (firstMax indent_sizes).getD 0
      line_length_mean := if means.isEmpty then 0 else means.sum / means.length
      line_length_max := maxs.foldr max 0
      quote_style := (firstMax quote_styles).getD "unknown"
      trailing_newline := patterns.all (fun p => p.trailing_newline) }

/-- The default extension list of `collect_files`. -/
def defaultExtensions : List String :=
  [".py", ".js", ".ts", ".cpp", ".cc", ".c", ".h", ".hpp", ".java", ".go"]

/-- The excluded directory names of `collect_files`. -/
def excludeDirs : List String :=
  ["node_modules", "vendor", "third_party", "build", "dist",
   "__pycache__", ".git", ".venv", "venv", ".tox", ".pytest_cache"]

/-- The slash-separated components of a path (`Path.parts`). -/
def pathParts (p : String) : List String :=
  (splitChar '/' p.toList).map (fun l => (⟨l⟩ : String))

/-- `collect_files` from analyze_project.py, over a modelled filesystem (a
list of path–content pairs): per extension, the files whose name matches
the glob, then the exclude-directory filter. -/
def collect_files (fs : List (String × PyContent)) (exts : List String) :
    List (String × PyContent) :=
  (exts.flatMap (fun ext => fs.filter (fun pc => ext.toList.isSuffixOf pc.1.toList))).filter
    (fun pc => !(pathParts pc.1).any (fun part => excludeDirs.contains part))

/-- The seven hard-coded language keys of `reports_by_lang`. -/
def languageKeys : List String :=
  ["python", "javascript", "typescript", "cpp", "c", "java", "go"]

/-- The reports collected under one language key: each file is analyzed and
appended to its language's list when that key exists. -/
def reportsFor (lang : String) (files : List (String × PyContent)) : List StyleReport :=
  (files.map (fun pc => analyze_file pc.1 pc.2)).filter (fun r => r.language = lang)

/-- One language's aggregated entry of the project report. -/
structure LangAgg where
  file_count : ℕ
  naming : NamingPatterns
  formatting : FormattingPatterns

/-- A language's aggregate; `none` when no reports carry that language (the
key is then skipped in the output). -/
def langAggregate (lang : String) (files : List (String × PyContent)) : Option LangAgg :=
  let rs := reportsFor lang files
  if rs.isEmpty then none
  else
    some
      { file_count := rs.length
        naming := merge_naming_patterns (rs.map (fun r => r.naming))
        formatting := merge_formatting_patterns (rs.map (fun r => r.formatting)) }

/-- The aggregated project report of `analyze_project`. -/
structure ProjectReport where
  total_files : ℕ
  languages : List (String × LangAgg)

/-- `analyze_project` from analyze_project.py; `none` models the empty dict
returned (after a message on stderr) when no source files are found. -/
def analyze_project (fs : List (String × PyContent)) (exts : List String) :
    Option ProjectReport :=
  let files := collect_files fs exts
  if files.isEmpty then none
  else
    some
      { total_files := files.length
        languages :=
          languageKeys.filterMap (fun l => (langAggregate l files).map (fun a => (l, a))) }

/-- The exit code of `main` in analyze_project.py: `sys.exit(1)` when
`analyze_project` returned an empty report, 0 otherwise. -/
def main_exit_code (fs : List (String × PyContent)) (exts : List String) : ℕ :=
  match analyze_project fs exts with
  | none => 1
  | some _ => 0

/-- The five identifier roles of a naming report. -/
inductive Role where
  | vars
  | functions
  | classes
  | constants
  | private_vars
deriving DecidableEq, Repr

/-- The distribution a naming report holds for one role. -/
def roleDist (p : NamingPatterns) (r : Role) : StyleDist :=
  match r with
  | .vars => p.vars
  | .functions => p.functions
  | .classes => p.classes
  | .constants => p.constants
  | .private_vars => p.private_vars

/-- The data of one function definition, for stating walker properties. -/
structure FnData where
  name : String
  args : List Arg
  returns : Bool
  body : List Stmt

/-- Extract a function definition's data from a node, if it is one. -/
def fnData : Stmt → Option FnData
  | .functionDef n a r b => some ⟨n, a, r, b⟩
  | _ => none

/-- Every function definition occurring anywhere in a tree, in walk order. -/
def allFns (tree : List Stmt) : List FnData :=
  (walkNodes tree).filterMap fnData

/-- The values one dict contributes for a key (at most one in a dict with
distinct keys). -/
def valsIn (k : String) (d : StyleDist) : List ℚ :=
  (d.filter (fun kv => kv.1 = k)).map (fun kv => kv.2)

/-- Append newly observed values to an optional existing bucket. -/
def extendB (o : Option (List ℚ)) (vs : List ℚ) : Option (List ℚ) :=
  match o with
  | some l => some (l ++ vs)
  | none => if vs.isEmpty then none else some vs

/-- The keys of a dict. -/
def distKeys (d : StyleDist) : List String := d.map (fun kv => kv.1)

theorem rhe_intCast (n : ℤ) : rhe (n : ℚ) = n := by
  unfold rhe
  rw [Int.floor_intCast]
  norm_num [round_intCast]

theorem pyRound_two_eq_self {q : ℚ} (h : (q * 100).den = 1) : pyRound 2 q = q := by
  have h1 : ((q * 100).num : ℚ) = q * 100 := (Rat.den_eq_one_iff _).mp h
  unfold pyRound
  have h10 : ((10 : ℚ) ^ 2) = 100 := by norm_num
  rw [h10, ← h1, rhe_intCast, h1]
  field_simp

theorem pyRound_two_den (q : ℚ) : (pyRound 2 q * 100).den = 1 := by
  unfold pyRound
  have h10 : ((10 : ℚ) ^ 2) = 100 := by norm_num
  rw [h10]
  have h2 : (rhe (q * 100) : ℚ) / 100 * 100 = (rhe (q * 100) : ℚ) := by field_simp
  rw [h2, Rat.den_intCast]

theorem rhe_nonneg {q : ℚ} (h : 0 ≤ q) : 0 ≤ rhe q := by
  unfold rhe
  have hfl : (0 : ℤ) ≤ ⌊q⌋ ↔ (0 : ℚ) ≤ q := by
    simpa using @Int.le_floor ℚ _ _ 0 q
  split
  · split
    · exact hfl.mpr h
    · linarith [hfl.mpr h]
  · rw [round_eq]
    rw [show (0 : ℤ) = ⌊(0 : ℚ)⌋ by simp]
    exact Int.floor_le_floor (by linarith)

theorem abs_rhe_sub (q : ℚ) : |(rhe q : ℚ) - q| ≤ 1 / 2 := by
  unfold rhe
  split
  · rename_i htie
    split
    · rw [abs_le]
      constructor <;> linarith
    · rw [abs_le]
      constructor <;> push_cast <;> linarith
  · rw [abs_sub_comm]
    exact abs_sub_round q

theorem pyRound_two_nonneg {q : ℚ} (h : 0 ≤ q) : 0 ≤ pyRound 2 q := by
  unfold pyRound
  have h2 : (0 : ℤ) ≤ rhe (q * 10 ^ 2) := rhe_nonneg (by positivity)
  positivity

theorem abs_pyRound_two_sub (q : ℚ) : |pyRound 2 q - q| ≤ 1 / 200 := by
  unfold pyRound
  have h10 : ((10 : ℚ) ^ 2) = 100 := by norm_num
  rw [h10]
  have h2 : (rhe (q * 100) : ℚ) / 100 - q = ((rhe (q * 100) : ℚ) - q * 100) / 100 := by
    field_simp
    ring
  rw [h2, abs_div, abs_of_pos (by norm_num : (0 : ℚ) < 100)]
  have h3 := abs_rhe_sub (q * 100)
  linarith

/-- Claim C6: the classifier is first-match-wins: every name that is
all-uppercase (Python isupper) and contains an underscore classifies as
UPPER_SNAKE_CASE — never PascalCase — because that rule is checked first. -/
theorem c6_upper_snake_wins (name : String) (h1 : pyIsUpper name = true)
    (h2 : name.toList.contains '_' = true) :
    detect_naming_style name = "UPPER_SNAKE_CASE" ∧
      detect_naming_style name ≠ "PascalCase" := by
  have hmain : detect_naming_style name = "UPPER_SNAKE_CASE" := by
    unfold detect_naming_style
    unfold pyIsUpper at h1
    rcases hn : name.toList with _ | ⟨c, cs⟩
    · rw [hn] at h1
      simp [pyIsUpperL] at h1
    · rw [hn] at h1 h2
      simp at h2
      simp [detectNamingCore, h1, h2]
  refine ⟨hmain, ?_⟩
  rw [hmain]
  decide

/-- Claim C6 witness: the concrete instance MY_CONST. -/
theorem c6_witness :
    pyIsUpper "MY_CONST" = true ∧ "MY_CONST".toList.contains '_' = true ∧
      detect_naming_style "MY_CONST" = "UPPER_SNAKE_CASE" ∧
      detect_naming_style "MY_CONST" ≠ "PascalCase" := by
  refine ⟨by decide, by decide, ?_⟩
  exact c6_upper_snake_wins "MY_CONST" (by decide) (by decide)

/-- Claim C2 counterexample: "_helper" begins with an underscore, yet the
classifier returns snake_case, not _private, because the snake_case check
precedes the leading-underscore check. -/
theorem c2_counterexample :
    startsUnderscore "_helper" = true ∧
      detect_naming_style "_helper" = "snake_case" ∧
      detect_naming_style "_helper" ≠ "_private" :=
  ⟨by decide, by decide, by decide⟩

/-- Claim C2 amended: for a name with a leading underscore, the classifier
returns _private exactly when the name is neither Python-isupper nor
Python-islower (the UPPER_SNAKE_CASE and snake_case rules are checked
first and match such names); independently, the walker records the
stripped name's classification under private_styles for every function
definition with that name anywhere in the tree and for every simple
assignment target with that name anywhere in the tree. -/
theorem c2_private_rule (name : String) (h : startsUnderscore name = true) :
    (detect_naming_style name = "_private" ↔
      (pyIsUpper name = false ∧ pyIsLower name = false)) ∧
    (∀ (tree : List Stmt) (args : List Arg) (r : Bool) (body : List Stmt),
      Stmt.functionDef name args r body ∈ walkNodes tree →
      detect_naming_style (strTail name) ∈ private_styles tree) ∧
    (∀ (tree : List Stmt) (targets : List Target),
      Stmt.assign targets ∈ walkNodes tree → Target.name name ∈ targets →
      detect_naming_style (strTail name) ∈ private_styles tree) := by
  refine ⟨?_, ?_, ?_⟩
  · unfold startsUnderscore at h
    unfold detect_naming_style pyIsUpper pyIsLower
    rcases hn : name.toList with _ | ⟨c, cs⟩
    · rw [hn] at h
      simp [startsUnderscoreCore] at h
    · rw [hn] at h
      simp only [startsUnderscoreCore, decide_eq_true_eq] at h
      subst h
      have hu : ('_' : Char).isUpper = false := by decide
      have hl : ('_' : Char).isLower = false := by decide
      have hc : ('_' :: cs).contains '_' = true := by simp
      cases hU : pyIsUpperL ('_' :: cs) <;> cases hL : pyIsLowerL ('_' :: cs) <;>
        simp [detectNamingCore, hU, hL, hu, hl, hc]
  · intro tree args r body hs
    unfold private_styles
    rw [List.mem_flatMap]
    refine ⟨Stmt.functionDef name args r body, hs, ?_⟩
    simp [nodePrivateStyles, h]
  · intro tree targets hs htar
    unfold private_styles
    rw [List.mem_flatMap]
    refine ⟨Stmt.assign targets, hs, ?_⟩
    show detect_naming_style (strTail name) ∈
      targets.flatMap (fun t =>
        match t with
        | Target.name id =>
            if startsUnderscore id then [detect_naming_style (strTail id)] else []
        | Target.otherTarget => [])
    rw [List.mem_flatMap]
    refine ⟨Target.name name, htar, ?_⟩
    simp [h]

/-- Claim C2 witness: "_Helper" is neither isupper nor islower, so the
classifier does return _private there, and a module defining a function
named "_Helper" — with a nested assignment to "_Helper" inside an if-block
— records the stripped name's classification from both occurrences. -/
theorem c2_witness :
    startsUnderscore "_Helper" = true ∧
      (detect_naming_style "_Helper" = "_private" ↔
        (pyIsUpper "_Helper" = false ∧ pyIsLower "_Helper" = false)) ∧
      detect_naming_style (strTail "_Helper") ∈
        private_styles [Stmt.functionDef "_Helper" [] false [Stmt.other []]] ∧
      detect_naming_style (strTail "_Helper") ∈
        private_styles [Stmt.other [Stmt.assign [Target.name "_Helper"]]] := by
  have h := c2_private_rule "_Helper" (by decide)
  refine ⟨by decide, h.1, ?_, ?_⟩
  · exact h.2.1 [Stmt.functionDef "_Helper" [] false [Stmt.other []]] [] false
      [Stmt.other []] (by simp [walkNodes])
  · exact h.2.2 [Stmt.other [Stmt.assign [Target.name "_Helper"]]]
      [Target.name "_Helper"] (by simp [walkNodes]) (by simp)

/-- Claim C7: the inferred indentation width is the GCD of the distinct
observed (nonzero) indent lengths; with a single distinct length it is
that length itself, which the GCD of a singleton also is. -/
theorem c7_indent_width_gcd (text : List Char) (h : indentationsOf text ≠ []) :
    (analyze_formatting text).indentation_size = listGcd (indentationsOf text).dedup := by
  unfold analyze_formatting
  simp only
  rw [if_neg (by simpa [List.isEmpty_iff] using h)]
  split
  · rfl
  · rename_i hlen
    push_neg at hlen
    have hne : (indentationsOf text).dedup ≠ [] := by
      simpa [List.dedup_eq_nil] using h
    have h1 : (indentationsOf text).dedup.length = 1 := by
      have h2 := List.length_pos.mpr hne
      omega
    obtain ⟨v, hv⟩ := List.length_eq_one.mp h1
    rw [hv]
    obtain ⟨a, t, ha⟩ := List.exists_cons_of_ne_nil h
    have hav : a = v := by
      have h3 : a ∈ (indentationsOf text).dedup := by
        rw [← List.mem_dedup, ha]
        simp
      rw [hv] at h3
      simpa using h3
    rw [ha]
    simp [listGcd, hav]

/-- Claim C7 witness: a file whose indents are 4, 8 and 12 infers width 4. -/
theorem c7_witness :
    indentationsOf "a\n    b\n        c\n            d".toList ≠ [] ∧
      (analyze_formatting "a\n    b\n        c\n            d".toList).indentation_size =
        listGcd (indentationsOf "a\n    b\n        c\n            d".toList).dedup ∧
      (analyze_formatting "a\n    b\n        c\n            d".toList).indentation_size = 4 := by
  refine ⟨by decide, c7_indent_width_gcd _ (by decide), by decide⟩

/-- Claim C4 counterexample: a directory containing only an excluded-pattern
file (under node_modules) yields no report at all — `analyze_project`
returns the empty dict and `main` exits with status 1 — rather than an
explicit empty report with total_files = 0. -/
theorem c4_counterexample :
    collect_files [("node_modules/a.py", ⟨"x = 1\n".toList, none⟩)] defaultExtensions = [] ∧
      analyze_project [("node_modules/a.py", ⟨"x = 1\n".toList, none⟩)] defaultExtensions =
        none ∧
      main_exit_code [("node_modules/a.py", ⟨"x = 1\n".toList, none⟩)] defaultExtensions = 1 :=
  ⟨rfl, rfl, rfl⟩

/-- Claim C4 amended: when discovery matches no files the run is an error:
`analyze_project` prints a message and returns an empty dict (no report,
in particular no total_files field), and `main` exits with status 1. -/
theorem c4_empty_corpus_fails (fs : List (String × PyContent)) (exts : List String)
    (h : collect_files fs exts = []) :
    analyze_project fs exts = none ∧ main_exit_code fs exts = 1 := by
  unfold main_exit_code analyze_project
  rw [h]
  simp

/-- Claim C4 witness: the amended behavior on the concrete excluded-only
directory. -/
theorem c4_witness :
    analyze_project [("node_modules/a.py", ⟨"x = 1\n".toList, none⟩)] defaultExtensions =
        none ∧
      main_exit_code [("node_modules/a.py", ⟨"x = 1\n".toList, none⟩)] defaultExtensions = 1 :=
  c4_empty_corpus_fails _ _ rfl

/-- Claim C10: the language detector maps the .rs extension to "rust", yet
the aggregator groups reports only under seven hard-coded language keys
that include neither "rust" nor "unknown", so a file detected as rust
never appears in any language group's report list. -/
theorem c10_rust_never_grouped :
    (∀ p : String, pathSuffixLower p = ".rs" → detect_language p = "rust") ∧
      ("rust" ∉ languageKeys ∧ "unknown" ∉ languageKeys) ∧
      (∀ (files : List (String × PyContent)) (lang p : String) (c : PyContent),
        lang ∈ languageKeys → detect_language p = "rust" →
        analyze_file p c ∉ reportsFor lang files) := by
  refine ⟨?_, ⟨by decide, by decide⟩, ?_⟩
  · intro p hp
    unfold detect_language
    rw [hp]
    decide
  · intro files lang p c hlang hrust hmem
    have h4 : (analyze_file p c).language = lang := by
      have h6 := List.mem_filter.mp hmem
      simpa using h6.2
    have h5 : (analyze_file p c).language = detect_language p := rfl
    rw [h4, hrust] at h5
    subst h5
    exact absurd hlang (by decide)

/-- Claim C10 witness: lib.rs is detected as rust and its report is not in
the python group of a project containing it. -/
theorem c10_witness :
    detect_language "lib.rs" = "rust" ∧
      analyze_file "lib.rs" (⟨"fn main()\n".toList, none⟩ : PyContent) ∉
        reportsFor "python"
          [("lib.rs", ⟨"fn main()\n".toList, none⟩), ("a.py", ⟨"x = 1\n".toList, none⟩)] := by
  refine ⟨c10_rust_never_grouped.1 "lib.rs" (by decide), ?_⟩
  exact
    c10_rust_never_grouped.2.2 _ "python" "lib.rs" _ (by decide)
      (c10_rust_never_grouped.1 "lib.rs" (by decide))

theorem addEntry_fresh (acc : List (String × List ℚ)) (k : String) (v : ℚ)
    (h : k ∉ acc.map Prod.fst) : addEntry acc k v = acc ++ [(k, [v])] := by
  induction acc with
  | nil => rfl
  | cons kv rest ih =>
    simp only [List.map_cons, List.mem_cons] at h
    push_neg at h
    rw [addEntry, if_neg (fun he => h.1 he.symm), ih h.2]
    rfl

theorem foldl_addEntry_eq (d : StyleDist) :
    ∀ acc : List (String × List ℚ), (d.map Prod.fst).Nodup →
      (∀ x ∈ d.map Prod.fst, x ∉ acc.map Prod.fst) →
      d.foldl (fun a kv => addEntry a kv.1 kv.2) acc =
        acc ++ d.map (fun kv => (kv.1, [kv.2])) := by
  induction d with
  | nil => intro acc _ _; simp
  | cons kv rest ih =>
    intro acc hnd hdisj
    simp only [List.foldl_cons]
    rw [addEntry_fresh acc kv.1 kv.2 (hdisj kv.1 (by simp))]
    rw [ih (acc ++ [(kv.1, [kv.2])]) (by simpa using hnd.of_cons) ?_]
    · simp
    · intro x hx
      simp only [List.map_append, List.mem_append, List.map_cons, List.map_nil,
        List.mem_singleton]
      push_neg
      refine ⟨hdisj x (by simp [hx]), ?_⟩
      intro hxk
      subst hxk
      simp only [List.map_cons, List.nodup_cons] at hnd
      exact hnd.1 hx

theorem merge_dicts_singleton (d : StyleDist) (hnd : (d.map Prod.fst).Nodup) :
    merge_dicts [d] = d.map (fun kv => (kv.1, pyRound 2 kv.2)) := by
  unfold merge_dicts collectEntries
  simp only [List.foldl_cons, List.foldl_nil]
  rw [foldl_addEntry_eq d [] hnd (by simp)]
  simp only [List.nil_append, List.map_map]
  apply List.map_congr_left
  intro kv _
  simp

theorem calc_keys_nodup (styles : List String) :
    ((calc_distribution styles).map Prod.fst).Nodup := by
  unfold calc_distribution
  split
  · simp
  · rw [List.map_map]
    have hf : (Prod.fst ∘ fun sc : String × ℕ =>
        (sc.1, pyRound 2 ((sc.2 : ℚ) / (styles.length : ℚ)))) = Prod.fst := rfl
    rw [hf]
    have hperm :=
      (List.perm_insertionSort (fun a b : String × ℕ => b.2 ≤ a.2)
        (styles.dedup.map (fun s => (s, (styles.filter (fun t => t = s)).length)))).map
        Prod.fst
    rw [List.Perm.nodup_iff hperm, List.map_map]
    have hg : (Prod.fst ∘ fun s : String =>
        (s, (styles.filter (fun t => t = s)).length)) = id := rfl
    rw [hg, List.map_id]
    exact styles.nodup_dedup

theorem calc_values_den (styles : List String) :
    ∀ kv ∈ calc_distribution styles, (kv.2 * 100).den = 1 := by
  intro kv hkv
  unfold calc_distribution at hkv
  split at hkv
  · simp at hkv
  · rw [List.mem_map] at hkv
    obtain ⟨sc, _, rfl⟩ := hkv
    exact pyRound_two_den _

theorem map_round_self {d : StyleDist} (h : ∀ kv ∈ d, (kv.2 * 100).den = 1) :
    d.map (fun kv => (kv.1, pyRound 2 kv.2)) = d := by
  induction d with
  | nil => rfl
  | cons kv rest ih =>
    simp only [List.map_cons]
    rw [pyRound_two_eq_self (h kv (by simp)), ih (fun x hx => h x (by simp [hx]))]

theorem mergeField_calc (styles : List String) :
    mergeField [calc_distribution styles] = calc_distribution styles := by
  by_cases hd : calc_distribution styles = []
  · rw [hd]; rfl
  · obtain ⟨a, t, ha⟩ := List.exists_cons_of_ne_nil hd
    unfold mergeField
    rw [ha]
    simp only [List.filter, List.isEmpty_cons, Bool.not_false, List.isEmpty_nil,
      Bool.not_true]
    rw [← ha]
    rw [merge_dicts_singleton _ (calc_keys_nodup styles)]
    exact map_round_self (calc_values_den styles)

theorem merge_single_calc (t : List Stmt) :
    merge_naming_patterns [analyze_naming_python (some t)] =
      analyze_naming_python (some t) := by
  unfold analyze_naming_python merge_naming_patterns
  simp only [List.map_cons, List.map_nil]
  rw [mergeField_calc, mergeField_calc, mergeField_calc, mergeField_calc, mergeField_calc]

/-- Claim C9: merging a singleton list containing one file report into a
project report reproduces that file's own naming distributions exactly:
each one-element average is the value itself, and re-rounding an
already-two-decimal value changes nothing. -/
theorem c9_singleton_merge (p : String) (c : PyContent) :
    merge_naming_patterns [(analyze_file p c).naming] = (analyze_file p c).naming := by
  have hn : (analyze_file p c).naming =
      (if detect_language p = "python" then analyze_naming_python c.parsed else {}) := rfl
  rw [hn]
  by_cases h : detect_language p = "python"
  · rw [if_pos h]
    cases hp : c.parsed with
    | none => rfl
    | some tree => exact merge_single_calc tree
  · rw [if_neg h]
    rfl

theorem extendB_nil (o : Option (List ℚ)) : extendB o [] = o := by
  cases o <;> simp [extendB]

theorem extendB_assoc (o : Option (List ℚ)) (a b : List ℚ) :
    extendB (extendB o a) b = extendB o (a ++ b) := by
  cases o with
  | some l => simp [extendB]
  | none =>
    by_cases ha : a = []
    · subst ha; simp [extendB]
    · by_cases hb : b = [] <;> simp [extendB, ha, hb]

theorem beqT {a b : String} (h : a = b) : (a == b) = true := beq_iff_eq.mpr h

theorem beqF {a b : String} (h : ¬a = b) : (a == b) = false :=
  beq_eq_false_iff_ne.mpr h

theorem addEntry_lookup (acc : List (String × List ℚ)) (k : String) (v : ℚ)
    (k' : String) :
    (addEntry acc k v).lookup k' =
      if k' = k then some (((acc.lookup k).getD []) ++ [v]) else acc.lookup k' := by
  induction acc with
  | nil =>
    by_cases h : k' = k
    · subst h; simp [addEntry, List.lookup]
    · rw [if_neg h]
      simp [addEntry, List.lookup, beqF h]
  | cons kv rest ih =>
    by_cases h1 : kv.1 = k
    · rw [addEntry, if_pos h1]
      subst h1
      by_cases h2 : k' = kv.1
      · rw [if_pos h2]
        simp [List.lookup, beqT h2]
      · rw [if_neg h2]
        simp [List.lookup, beqF h2]
    · rw [addEntry, if_neg h1]
      by_cases h2 : k' = kv.1
      · have h3 : ¬k' = k := fun he => h1 (h2.symm.trans he)
        rw [if_neg h3]
        simp [List.lookup, beqT h2]
      · by_cases h3 : k' = k
        · rw [if_pos h3]
          have h4 : (k == kv.1) = false := beqF (fun he => h1 he.symm)
          simp [List.lookup, beqF h2, h4, ih, if_pos h3]
        · rw [if_neg h3]
          simp [List.lookup, beqF h2, ih, if_neg h3]

theorem foldl_dict_lookup (d : StyleDist) :
    ∀ (acc : List (String × List ℚ)) (k : String),
      (d.foldl (fun a kv => addEntry a kv.1 kv.2) acc).lookup k =
        extendB (acc.lookup k) (valsIn k d) := by
  induction d with
  | nil => intro acc k; simp [valsIn, extendB_nil]
  | cons kv rest ih =>
    intro acc k
    simp only [List.foldl_cons]
    rw [ih (addEntry acc kv.1 kv.2) k, addEntry_lookup]
    by_cases h : k = kv.1
    · have he : kv.1 = k := h.symm
      have hv : valsIn k (kv :: rest) = kv.2 :: valsIn k rest := by
        simp [valsIn, List.filter_cons, he]
      rw [if_pos h, hv, h]
      cases hl : acc.lookup kv.1 with
      | some l => simp [extendB]
      | none => simp [extendB]
    · have hne : kv.1 ≠ k := fun he => h he.symm
      have hv : valsIn k (kv :: rest) = valsIn k rest := by
        simp [valsIn, List.filter_cons, hne]
      rw [if_neg h, hv]

theorem collect_lookup (dicts : List StyleDist) :
    ∀ (acc : List (String × List ℚ)) (k : String),
      (dicts.foldl
          (fun acc d => d.foldl (fun a kv => addEntry a kv.1 kv.2) acc) acc).lookup k =
        extendB (acc.lookup k) (dicts.flatMap (valsIn k)) := by
  induction dicts with
  | nil => intro acc k; simp [extendB_nil]
  | cons d ds ih =>
    intro acc k
    simp only [List.foldl_cons]
    rw [ih, foldl_dict_lookup, extendB_assoc]
    simp

theorem lookup_map_snd (l : List (String × List ℚ)) (f : List ℚ → ℚ) (k : String) :
    (l.map (fun kv => (kv.1, f kv.2))).lookup k = (l.lookup k).map f := by
  induction l with
  | nil => rfl
  | cons kv rest ih =>
    by_cases h : k = kv.1
    · subst h; simp [List.lookup]
    · simp [List.lookup, beqF h, ih]

theorem merge_dicts_lookup (dicts : List StyleDist) (k : String) :
    (merge_dicts dicts).lookup k =
      if dicts.flatMap (valsIn k) = [] then none
      else
        some (pyRound 2
          ((dicts.flatMap (valsIn k)).sum / ((dicts.flatMap (valsIn k)).length : ℚ))) := by
  unfold merge_dicts collectEntries
  rw [lookup_map_snd _ (fun vs => pyRound 2 (vs.sum / (vs.length : ℚ))) k, collect_lookup]
  simp only [List.lookup_nil]
  by_cases h : dicts.flatMap (valsIn k) = []
  · simp [extendB, h]
  · simp [extendB, h]

theorem valsIn_nil_of_not_mem (d : StyleDist) (k : String)
    (h : k ∉ d.map Prod.fst) : valsIn k d = [] := by
  induction d with
  | nil => rfl
  | cons kv rest ih =>
    simp only [List.map_cons, List.mem_cons] at h
    push_neg at h
    have hne : kv.1 ≠ k := fun he => h.1 he.symm
    have h2 := ih h.2
    simp only [valsIn] at h2 ⊢
    simp [List.filter_cons, hne, h2]

theorem valsIn_eq_lookup (d : StyleDist) (k : String)
    (hnd : (d.map Prod.fst).Nodup) : valsIn k d = (d.lookup k).toList := by
  induction d with
  | nil => rfl
  | cons kv rest ih =>
    simp only [List.map_cons, List.nodup_cons] at hnd
    by_cases h : k = kv.1
    · have hrest : valsIn k rest = [] := valsIn_nil_of_not_mem rest k (h ▸ hnd.1)
      have hd : (decide (kv.1 = k)) = true := decide_eq_true h.symm
      simp only [valsIn] at hrest ⊢
      simp [List.filter_cons, hd, hrest, List.lookup, beqT h]
    · have hd : (decide (kv.1 = k)) = false := decide_eq_false (fun he => h he.symm)
      have h2 : valsIn k (kv :: rest) = valsIn k rest := by
        simp [valsIn, List.filter_cons, hd]
      rw [h2, ih hnd.2]
      simp [List.lookup, beqF h]

theorem flatMap_valsIn_filter (ds : List StyleDist) (k : String) :
    (ds.filter (fun d => !d.isEmpty)).flatMap (valsIn k) = ds.flatMap (valsIn k) := by
  induction ds with
  | nil => rfl
  | cons d rest ih =>
    by_cases h : d = []
    · subst h
      simp [List.filter_cons, List.flatMap_cons, valsIn, ih]
    · obtain ⟨a, t, rfl⟩ := List.exists_cons_of_ne_nil h
      simp only [List.filter_cons, List.isEmpty_cons, Bool.not_false, if_true,
        List.flatMap_cons, ih]

theorem flatMap_valsIn_eq_filterMap (ds : List StyleDist) (k : String)
    (hnd : ∀ d ∈ ds, (d.map Prod.fst).Nodup) :
    ds.flatMap (valsIn k) = ds.filterMap (fun d => d.lookup k) := by
  induction ds with
  | nil => rfl
  | cons d rest ih =>
    rw [List.flatMap_cons, valsIn_eq_lookup d k (hnd d (by simp)),
      ih (fun x hx => hnd x (by simp [hx]))]
    cases hdk : d.lookup k <;> simp [List.filterMap_cons, hdk]

theorem roleDist_merge (ps : List NamingPatterns) (r : Role) :
    roleDist (merge_naming_patterns ps) r = mergeField (ps.map (fun p => roleDist p r)) := by
  cases r <;> rfl

/-- Claim C1 amended: for each identifier role, the project merge computes,
for every style tag, the arithmetic mean of that tag's per-file proportion
across only the files whose distribution for that role contains the tag —
a file that observed the role but not the tag is excluded from that tag's
denominator, so merging functions distributions of pure snake_case and
pure camelCase files yields 1.0 for both tags, not 0.5. -/
theorem c1_merge_mean_over_contributing (ps : List NamingPatterns) (r : Role)
    (k : String)
    (hnd : ∀ p ∈ ps, ((roleDist p r).map Prod.fst).Nodup)
    (hk : ∃ p ∈ ps, ((roleDist p r).lookup k).isSome = true) :
    (roleDist (merge_naming_patterns ps) r).lookup k =
      some (pyRound 2
        ((ps.filterMap (fun p => (roleDist p r).lookup k)).sum /
          ((ps.filterMap (fun p => (roleDist p r).lookup k)).length : ℚ))) := by
  rw [roleDist_merge]
  have hnd2 : ∀ d ∈ ps.map (fun p => roleDist p r), (d.map Prod.fst).Nodup := by
    intro d hd
    obtain ⟨p, hp, rfl⟩ := List.mem_map.mp hd
    exact hnd p hp
  have hvals :
      (ps.map (fun p => roleDist p r)).flatMap (valsIn k) =
        ps.filterMap (fun p => (roleDist p r).lookup k) := by
    rw [flatMap_valsIn_eq_filterMap _ k hnd2, List.filterMap_map]
    rfl
  have hvne : (ps.map (fun p => roleDist p r)).flatMap (valsIn k) ≠ [] := by
    rw [hvals]
    intro hnil
    rw [List.filterMap_eq_nil_iff] at hnil
    obtain ⟨p, hp, hs⟩ := hk
    rw [hnil p hp] at hs
    simp at hs
  unfold mergeField
  have hfl := flatMap_valsIn_filter (ps.map (fun p => roleDist p r)) k
  have hneList :
      ¬((ps.map (fun p => roleDist p r)).filter (fun d => !d.isEmpty)).isEmpty = true := by
    intro h0
    rw [List.isEmpty_iff] at h0
    rw [h0] at hfl
    exact hvne (by simpa using hfl.symm)
  rw [if_neg hneList, merge_dicts_lookup, hfl, hvals, if_neg (hvals ▸ hvne)]

theorem pyRound_two_one : pyRound 2 (1 : ℚ) = 1 := by
  apply pyRound_two_eq_self
  rw [one_mul]
  simp

theorem calc_singleton (s : String) : calc_distribution [s] = [(s, 1)] := by
  unfold calc_distribution
  rw [if_neg (by simp)]
  simp [List.insertionSort, List.orderedInsert, pyRound_two_one]

theorem eval_fnA :
    (analyze_naming_python
        (some [Stmt.functionDef "do_x" [] false [Stmt.other []]])).functions =
      [("snake_case", 1)] := by
  have hA : func_styles [Stmt.functionDef "do_x" [] false [Stmt.other []]] =
      ["snake_case"] := by
    unfold func_styles
    simp [walkNodes, nodeFuncStyles]
    decide
  show calc_distribution (func_styles [Stmt.functionDef "do_x" [] false [Stmt.other []]]) =
    [("snake_case", 1)]
  rw [hA, calc_singleton]

theorem eval_fnB :
    (analyze_naming_python
        (some [Stmt.functionDef "doX" [] false [Stmt.other []]])).functions =
      [("camelCase", 1)] := by
  have hB : func_styles [Stmt.functionDef "doX" [] false [Stmt.other []]] =
      ["camelCase"] := by
    unfold func_styles
    simp [walkNodes, nodeFuncStyles]
    decide
  show calc_distribution (func_styles [Stmt.functionDef "doX" [] false [Stmt.other []]]) =
    [("camelCase", 1)]
  rw [hB, calc_singleton]

/-- Claim C1 counterexample: merging the two file reports whose functions
distributions are pure snake_case and pure camelCase yields 1.0 for each
tag — each tag's mean is taken only over the files containing it — not the
0.5 the claim asserts. -/
theorem c1_counterexample :
    (analyze_naming_python
        (some [Stmt.functionDef "do_x" [] false [Stmt.other []]])).functions =
      [("snake_case", 1)] ∧
    (analyze_naming_python
        (some [Stmt.functionDef "doX" [] false [Stmt.other []]])).functions =
      [("camelCase", 1)] ∧
    (merge_naming_patterns
        [analyze_naming_python (some [Stmt.functionDef "do_x" [] false [Stmt.other []]]),
          analyze_naming_python
            (some [Stmt.functionDef "doX" [] false [Stmt.other []]])]).functions =
      [("snake_case", 1), ("camelCase", 1)] ∧
    ¬([("snake_case", 1), ("camelCase", 1)] : StyleDist) =
      [("snake_case", 1 / 2), ("camelCase", 1 / 2)] := by
  refine ⟨eval_fnA, eval_fnB, ?_, ?_⟩
  · have hm :
        (merge_naming_patterns
            [analyze_naming_python (some [Stmt.functionDef "do_x" [] false [Stmt.other []]]),
              analyze_naming_python
                (some [Stmt.functionDef "doX" [] false [Stmt.other []]])]).functions =
          mergeField
            [(analyze_naming_python
                (some [Stmt.functionDef "do_x" [] false [Stmt.other []]])).functions,
              (analyze_naming_python
                (some [Stmt.functionDef "doX" [] false [Stmt.other []]])).functions] := rfl
    rw [hm, eval_fnA, eval_fnB]
    show merge_dicts [[("snake_case", 1)], [("camelCase", 1)]] =
      [("snake_case", 1), ("camelCase", 1)]
    unfold merge_dicts collectEntries
    simp [addEntry, pyRound_two_one]
  · intro h
    have h2 : (1 : ℚ) = 1 / 2 := congrArg Prod.snd (List.head_eq_of_cons_eq h)
    norm_num at h2

/-- Claim C1 witness: the amended mean-over-contributing-files rule applied
to the same two file reports at tag snake_case. -/
theorem c1_witness :
    (roleDist
        (merge_naming_patterns
          [analyze_naming_python (some [Stmt.functionDef "do_x" [] false [Stmt.other []]]),
            analyze_naming_python (some [Stmt.functionDef "doX" [] false [Stmt.other []]])])
        Role.functions).lookup "snake_case" =
      some (pyRound 2
        (([analyze_naming_python (some [Stmt.functionDef "do_x" [] false [Stmt.other []]]),
              analyze_naming_python
                (some [Stmt.functionDef "doX" [] false [Stmt.other []]])].filterMap
              (fun p => (roleDist p Role.functions).lookup "snake_case")).sum /
          (([analyze_naming_python (some [Stmt.functionDef "do_x" [] false [Stmt.other []]]),
                analyze_naming_python
                  (some [Stmt.functionDef "doX" [] false [Stmt.other []]])].filterMap
                (fun p => (roleDist p Role.functions).lookup "snake_case")).length : ℚ))) := by
  apply c1_merge_mean_over_contributing
  · intro p hp
    rcases List.mem_cons.mp hp with h | h
    · rw [h]; exact calc_keys_nodup _
    · have h2 : p = analyze_naming_python (some [Stmt.functionDef "doX" [] false [Stmt.other []]]) := by
        simpa using h
      rw [h2]; exact calc_keys_nodup _
  · refine ⟨analyze_naming_python (some [Stmt.functionDef "do_x" [] false [Stmt.other []]]),
      by simp, ?_⟩
    show (((analyze_naming_python
        (some [Stmt.functionDef "do_x" [] false [Stmt.other []]])).functions).lookup
        "snake_case").isSome = true
    rw [eval_fnA]
    simp [List.lookup]

theorem sum_dedup_filter_len (l : List String) :
    (l.dedup.map fun x => (l.filter (fun t => t = x)).length).sum = l.length := by
  have h := List.sum_map_count_dedup_eq_length l
  simpa [List.count, ← List.countP_eq_length_filter] using h

theorem list_sum_div {α : Type} (l : List α) (f : α → ℚ) (c : ℚ) :
    (l.map (fun x => f x / c)).sum = (l.map f).sum / c := by
  induction l with
  | nil => simp
  | cons x xs ih => simp [ih, add_div]

theorem sum_map_pyRound_bound (l : List ℚ) :
    |(l.map (pyRound 2)).sum - l.sum| ≤ (l.length : ℚ) / 200 := by
  induction l with
  | nil => simp
  | cons x xs ih =>
    simp only [List.map_cons, List.sum_cons, List.length_cons]
    have h1 := abs_pyRound_two_sub x
    have h2 : pyRound 2 x + (xs.map (pyRound 2)).sum - (x + xs.sum) =
        (pyRound 2 x - x) + ((xs.map (pyRound 2)).sum - xs.sum) := by ring
    rw [h2]
    have h3 := abs_add (pyRound 2 x - x) ((xs.map (pyRound 2)).sum - xs.sum)
    push_cast
    linarith

theorem calc_sum_near_one (styles : List String) (h : styles ≠ []) :
    |((calc_distribution styles).map (fun kv => kv.2)).sum - 1| ≤
      ((calc_distribution styles).length : ℚ) / 200 := by
  unfold calc_distribution
  rw [if_neg (by simpa [List.isEmpty_iff] using h)]
  have hbase :
      ((((styles.dedup.map
            (fun s => (s, (styles.filter (fun t => t = s)).length))).insertionSort
          (fun a b => b.2 ≤ a.2)).map
            (fun sc => ((sc.2 : ℚ) / (styles.length : ℚ)))).sum) = 1 := by
    rw [list_sum_div]
    have hperm :=
      (List.perm_insertionSort (fun a b : String × ℕ => b.2 ≤ a.2)
        (styles.dedup.map (fun s => (s, (styles.filter (fun t => t = s)).length)))).map
        (fun sc : String × ℕ => ((sc.2 : ℕ) : ℚ))
    rw [List.Perm.sum_eq hperm, List.map_map]
    have hcast :
        (styles.dedup.map
            ((fun sc : String × ℕ => ((sc.2 : ℕ) : ℚ)) ∘
              fun s => (s, (styles.filter (fun t => t = s)).length))).sum =
          (((styles.dedup.map
              (fun s => (styles.filter (fun t => t = s)).length)).sum : ℕ) : ℚ) := by
    
      rw [Nat.cast_list_sum, List.map_map]
      rfl
    rw [hcast, sum_dedup_filter_len]
    have hlen : (styles.length : ℚ) ≠ 0 := by
      simpa using h
    field_simp
  rw [List.map_map]
  have hcomp :
      ((fun kv : String × ℚ => kv.2) ∘ fun sc : String × ℕ =>
        (sc.1, pyRound 2 ((sc.2 : ℚ) / (styles.length : ℚ)))) =
        (pyRound 2) ∘ (fun sc : String × ℕ => ((sc.2 : ℚ) / (styles.length : ℚ))) := rfl
  rw [hcomp, ← List.map_map]
  rw [show (1 : ℚ) = (((styles.dedup.map
        (fun s => (s, (styles.filter (fun t => t = s)).length))).insertionSort
      (fun a b => b.2 ≤ a.2)).map
        (fun sc => ((sc.2 : ℚ) / (styles.length : ℚ)))).sum from hbase.symm]
  have hb := sum_map_pyRound_bound
    (((styles.dedup.map
        (fun s => (s, (styles.filter (fun t => t = s)).length))).insertionSort
      (fun a b => b.2 ≤ a.2)).map
        (fun sc => ((sc.2 : ℚ) / (styles.length : ℚ))))
  simpa using hb

theorem addEntry_vals_mem (acc : List (String × List ℚ)) (k : String) (v : ℚ) :
    ∀ e ∈ addEntry acc k v, ∀ x ∈ e.2, (∃ ea ∈ acc, x ∈ ea.2) ∨ x = v := by
  induction acc with
  | nil =>
    intro e he x hx
    simp [addEntry] at he
    subst he
    simp at hx
    exact Or.inr hx
  | cons kv rest ih =>
    intro e he x hx
    rw [addEntry] at he
    by_cases h1 : kv.1 = k
    · rw [if_pos h1] at he
      rcases List.mem_cons.mp he with h2 | h2
      · subst h2
        simp only [List.mem_append, List.mem_singleton] at hx
        rcases hx with h3 | h3
        · exact Or.inl ⟨kv, by simp, h3⟩
        · exact Or.inr h3
      · exact Or.inl ⟨e, by simp [h2], hx⟩
    · rw [if_neg h1] at he
      rcases List.mem_cons.mp he with h2 | h2
      · subst h2
        exact Or.inl ⟨e, by simp, hx⟩
      · rcases ih e h2 x hx with ⟨ea, hea, hxa⟩ | h3
        · exact Or.inl ⟨ea, by simp [hea], hxa⟩
        · exact Or.inr h3

theorem foldl_dict_vals_mem (d : StyleDist) :
    ∀ (acc : List (String × List ℚ)), ∀ e ∈ d.foldl (fun a kv => addEntry a kv.1 kv.2) acc,
      ∀ x ∈ e.2, (∃ ea ∈ acc, x ∈ ea.2) ∨ ∃ kv ∈ d, kv.2 = x := by
  induction d with
  | nil => intro acc e he x hx; exact Or.inl ⟨e, he, hx⟩
  | cons kv rest ih =>
    intro acc e he x hx
    simp only [List.foldl_cons] at he
    rcases ih (addEntry acc kv.1 kv.2) e he x hx with ⟨ea, hea, hxa⟩ | ⟨kv2, hkv2, hx2⟩
    · rcases addEntry_vals_mem acc kv.1 kv.2 ea hea x hxa with ⟨eb, heb, hxb⟩ | h3
      · exact Or.inl ⟨eb, heb, hxb⟩
      · exact Or.inr ⟨kv, by simp, h3.symm⟩
    · exact Or.inr ⟨kv2, by simp [hkv2], hx2⟩

theorem collect_vals_mem (dicts : List StyleDist) :
    ∀ e ∈ collectEntries dicts, ∀ x ∈ e.2, ∃ d ∈ dicts, ∃ kv ∈ d, kv.2 = x := by
  unfold collectEntries
  suffices h : ∀ (acc : List (String × List ℚ)),
      ∀ e ∈ dicts.foldl (fun acc d => d.foldl (fun a kv => addEntry a kv.1 kv.2) acc) acc,
      ∀ x ∈ e.2, (∃ ea ∈ acc, x ∈ ea.2) ∨ ∃ d ∈ dicts, ∃ kv ∈ d, kv.2 = x by
    intro e he x hx
    rcases h [] e he x hx with ⟨ea, hea, _⟩ | h2
    · simp at hea
    · exact h2
  induction dicts with
  | nil => intro acc e he x hx; exact Or.inl ⟨e, he, hx⟩
  | cons d ds ih =>
    intro acc e he x hx
    simp only [List.foldl_cons] at he
    rcases ih (d.foldl (fun a kv => addEntry a kv.1 kv.2) acc) e he x hx with
      ⟨ea, hea, hxa⟩ | ⟨d2, hd2, hkv⟩
    · rcases foldl_dict_vals_mem d acc ea hea x hxa with ⟨eb, heb, hxb⟩ | ⟨kv2, hkv2, hx2⟩
      · exact Or.inl ⟨eb, heb, hxb⟩
      · exact Or.inr ⟨d, by simp, kv2, hkv2, hx2⟩
    · exact Or.inr ⟨d2, by simp [hd2], hkv⟩

theorem merge_dicts_nonneg (dicts : List StyleDist)
    (h : ∀ d ∈ dicts, ∀ kv ∈ d, 0 ≤ kv.2) :
    ∀ kv ∈ merge_dicts dicts, 0 ≤ kv.2 := by
  intro kv hkv
  unfold merge_dicts at hkv
  rw [List.mem_map] at hkv
  obtain ⟨e, he, rfl⟩ := hkv
  apply pyRound_two_nonneg
  apply div_nonneg
  · apply List.sum_nonneg
    intro x hx
    obtain ⟨d, hd, kv2, hkv2, rfl⟩ := collect_vals_mem dicts e he x hx
    exact h d hd kv2 hkv2
  · positivity

/-- Claim C3 amended: every weight produced by the per-file analysis or by
the project merge (from non-negative inputs) is non-negative, and a
non-empty per-file distribution sums to 1 within its number of tags times
1/200 (the two-decimal rounding error per tag) — not within 1e-6: with
three equally frequent tags the sum is 0.99. -/
theorem c3_weight_invariants (styles : List String) (h : styles ≠ []) :
    (∀ kv ∈ calc_distribution styles, 0 ≤ kv.2) ∧
    (∀ dicts : List StyleDist, (∀ d ∈ dicts, ∀ kv ∈ d, 0 ≤ kv.2) →
      ∀ kv ∈ merge_dicts dicts, 0 ≤ kv.2) ∧
    |((calc_distribution styles).map (fun kv => kv.2)).sum - 1| ≤
      ((calc_distribution styles).length : ℚ) / 200 := by
  refine ⟨?_, merge_dicts_nonneg, calc_sum_near_one styles h⟩
  intro kv hkv
  unfold calc_distribution at hkv
  rw [if_neg (by simpa [List.isEmpty_iff] using h)] at hkv
  rw [List.mem_map] at hkv
  obtain ⟨sc, _, rfl⟩ := hkv
  apply pyRound_two_nonneg
  positivity

theorem pyRound_third : pyRound 2 ((1 : ℚ) / 3) = 33 / 100 := by
  unfold pyRound rhe
  rw [show ((1 : ℚ) / 3 * 10 ^ 2) = 100 / 3 by norm_num]
  rw [show ⌊(100 : ℚ) / 3⌋ = 33 by norm_num]
  rw [if_neg (by norm_num)]
  rw [show round ((100 : ℚ) / 3) = 33 by rw [round_eq]; norm_num]
  norm_num

theorem calc_three :
    calc_distribution ["snake_case", "PascalCase", "camelCase"] =
      [("snake_case", 33 / 100), ("PascalCase", 33 / 100), ("camelCase", 33 / 100)] := by
  unfold calc_distribution
  rw [if_neg (by simp)]
  norm_num +decide [List.dedup_cons_of_not_mem, List.insertionSort, List.orderedInsert,
    List.filter_cons, List.filter_nil, pyRound_third]

theorem eval_fn3 :
    (analyze_naming_python
        (some [Stmt.functionDef "do_x" [] false [Stmt.other []],
          Stmt.functionDef "DoX" [] false [Stmt.other []],
          Stmt.functionDef "doX" [] false [Stmt.other []]])).functions =
      [("snake_case", 33 / 100), ("PascalCase", 33 / 100), ("camelCase", 33 / 100)] := by
  have h3 : func_styles [Stmt.functionDef "do_x" [] false [Stmt.other []],
      Stmt.functionDef "DoX" [] false [Stmt.other []],
      Stmt.functionDef "doX" [] false [Stmt.other []]] =
      ["snake_case", "PascalCase", "camelCase"] := by
    unfold func_styles
    simp [walkNodes, nodeFuncStyles]
    decide
  show calc_distribution (func_styles [Stmt.functionDef "do_x" [] false [Stmt.other []],
      Stmt.functionDef "DoX" [] false [Stmt.other []],
      Stmt.functionDef "doX" [] false [Stmt.other []]]) =
    [("snake_case", 33 / 100), ("PascalCase", 33 / 100), ("camelCase", 33 / 100)]
  rw [h3, calc_three]

/-- Claim C3 counterexample: a file with three functions in three different
styles yields the functions distribution with each tag at 0.33, whose
weights sum to 0.99 — off from 1.0 by 0.01, far beyond tolerance 1e-6. -/
theorem c3_counterexample :
    (analyze_naming_python
          (some [Stmt.functionDef "do_x" [] false [Stmt.other []],
            Stmt.functionDef "DoX" [] false [Stmt.other []],
            Stmt.functionDef "doX" [] false [Stmt.other []]])).functions ≠ [] ∧
    ((analyze_naming_python
          (some [Stmt.functionDef "do_x" [] false [Stmt.other []],
            Stmt.functionDef "DoX" [] false [Stmt.other []],
            Stmt.functionDef "doX" [] false [Stmt.other []]])).functions.map
        (fun kv => kv.2)).sum = 99 / 100 ∧
    ¬|((analyze_naming_python
          (some [Stmt.functionDef "do_x" [] false [Stmt.other []],
            Stmt.functionDef "DoX" [] false [Stmt.other []],
            Stmt.functionDef "doX" [] false [Stmt.other []]])).functions.map
        (fun kv => kv.2)).sum - 1| ≤ 1 / 1000000 := by
  have hsum :
      ((analyze_naming_python
            (some [Stmt.functionDef "do_x" [] false [Stmt.other []],
              Stmt.functionDef "DoX" [] false [Stmt.other []],
              Stmt.functionDef "doX" [] false [Stmt.other []]])).functions.map
          (fun kv => kv.2)).sum = 99 / 100 := by
    rw [eval_fn3]; norm_num
  refine ⟨by rw [eval_fn3]; simp, hsum, ?_⟩
  rw [hsum]
  intro hle
  rw [show ((99 : ℚ) / 100 - 1) = -(1 / 100) by norm_num, abs_neg,
    abs_of_pos (by norm_num : (0 : ℚ) < 1 / 100)] at hle
  linarith

/-- Claim C3 witness: the amended bound applied at the same three-style
list: the sum 0.99 is indeed within 3/200 of 1. -/
theorem c3_witness :
    (∀ kv ∈ calc_distribution ["snake_case", "PascalCase", "camelCase"], 0 ≤ kv.2) ∧
    (∀ dicts : List StyleDist, (∀ d ∈ dicts, ∀ kv ∈ d, 0 ≤ kv.2) →
      ∀ kv ∈ merge_dicts dicts, 0 ≤ kv.2) ∧
    |((calc_distribution ["snake_case", "PascalCase", "camelCase"]).map
        (fun kv => kv.2)).sum - 1| ≤
      ((calc_distribution ["snake_case", "PascalCase", "camelCase"]).length : ℚ) / 200 :=
  c3_weight_invariants ["snake_case", "PascalCase", "camelCase"] (by decide)

theorem flatMap_funcStyles_eq (ns : List Stmt) :
    ns.flatMap nodeFuncStyles =
      (ns.filterMap fnData).map (fun f => detect_naming_style f.name) := by
  induction ns with
  | nil => rfl
  | cons s rest ih =>
    cases s <;> simp [nodeFuncStyles, fnData, List.filterMap_cons, ih]

theorem flatMap_funcLens_eq (ns : List Stmt) :
    ns.flatMap nodeFuncLens = (ns.filterMap fnData).map (fun f => f.body.length) := by
  induction ns with
  | nil => rfl
  | cons s rest ih =>
    cases s <;> simp [nodeFuncLens, fnData, List.filterMap_cons, ih]

theorem hint_count_eq (ns : List Stmt) :
    (ns.filter fnHasHint).length =
      ((ns.filterMap fnData).filter
        (fun f => f.returns || f.args.any (fun a => a.ann))).length := by
  induction ns with
  | nil => rfl
  | cons s rest ih =>
    cases s with
    | functionDef n a r b =>
      by_cases hc : (r || a.any (fun x => x.ann)) = true <;>
        simp [fnHasHint, fnData, List.filterMap_cons, List.filter_cons, hc, ih]
    | classDef n b => simp [fnHasHint, fnData, List.filterMap_cons, List.filter_cons, ih]
    | assign t => simp [fnHasHint, fnData, List.filterMap_cons, List.filter_cons, ih]
    | exprStmt v => simp [fnHasHint, fnData, List.filterMap_cons, List.filter_cons, ih]
    | other b => simp [fnHasHint, fnData, List.filterMap_cons, List.filter_cons, ih]

theorem doc_count_eq (ns : List Stmt) :
    (ns.filter fnHasDocstring).length =
      ((ns.filterMap fnData).filter
        (fun f => fnHasDocstring (Stmt.functionDef f.name f.args f.returns f.body))).length := by
  induction ns with
  | nil => rfl
  | cons s rest ih =>
    cases s with
    | functionDef n a r b =>
      by_cases hc : fnHasDocstring (Stmt.functionDef n a r b) = true <;>
        simp [fnData, List.filterMap_cons, List.filter_cons, hc, ih]
    | classDef n b => simp [fnHasDocstring, fnData, List.filterMap_cons, List.filter_cons, ih]
    | assign t => simp [fnHasDocstring, fnData, List.filterMap_cons, List.filter_cons, ih]
    | exprStmt v => simp [fnHasDocstring, fnData, List.filterMap_cons, List.filter_cons, ih]
    | other b => simp [fnHasDocstring, fnData, List.filterMap_cons, List.filter_cons, ih]

theorem fnData_varStyles {s : Stmt} {f : FnData} (h : fnData s = some f) :
    nodeVarStyles s = f.args.map (fun a => detect_naming_style a.arg) := by
  cases s <;> simp [fnData] at h
  rename_i n a r b
  subst h
  rfl

/-- Claim C5: for every function definition anywhere in the tree, the
walker records the function name's classification under functions, each
positional parameter name's classification under variables, the function's
direct statement count as its length, and tallies whether it declares a
return or parameter type annotation and whether its first statement is a
string-literal docstring. -/
theorem c5_walker_records (tree : List Stmt) :
    func_styles tree = (allFns tree).map (fun f => detect_naming_style f.name) ∧
    (∀ f ∈ allFns tree, ∀ a ∈ f.args, detect_naming_style a.arg ∈ var_styles tree) ∧
    func_lengths tree = (allFns tree).map (fun f => f.body.length) ∧
    type_hint_usage tree =
      ((allFns tree).filter (fun f => f.returns || f.args.any (fun a => a.ann))).length ∧
    docstring_usage tree =
      ((allFns tree).filter
        (fun f => fnHasDocstring (Stmt.functionDef f.name f.args f.returns f.body))).length := by
  refine ⟨flatMap_funcStyles_eq _, ?_, flatMap_funcLens_eq _, hint_count_eq _, doc_count_eq _⟩
  intro f hf a ha
  unfold allFns at hf
  obtain ⟨s, hs, hsf⟩ := List.mem_filterMap.mp hf
  unfold var_styles
  rw [List.mem_flatMap]
  refine ⟨s, hs, ?_⟩
  rw [fnData_varStyles hsf]
  exact List.mem_map.mpr ⟨a, ha, rfl⟩

/-- Claim C5 witness: the walker properties at a one-function module with
one parameter, and the recorded parameter classification concretely. -/
theorem c5_witness :
    (func_styles [Stmt.functionDef "do_x" [Arg.mk "count" false] false [Stmt.other []]] =
      (allFns [Stmt.functionDef "do_x" [Arg.mk "count" false] false [Stmt.other []]]).map
        (fun f => detect_naming_style f.name)) ∧
    detect_naming_style "count" ∈
      var_styles [Stmt.functionDef "do_x" [Arg.mk "count" false] false [Stmt.other []]] := by
  have h := c5_walker_records
    [Stmt.functionDef "do_x" [Arg.mk "count" false] false [Stmt.other []]]
  refine ⟨h.1, ?_⟩
  exact h.2.1 ⟨"do_x", [Arg.mk "count" false], false, [Stmt.other []]⟩
    (by simp [allFns, walkNodes, fnData]) (Arg.mk "count" false) (by simp)

theorem mergeField_skip_empty (ds es : List StyleDist) :
    mergeField (ds ++ [] :: es) = mergeField (ds ++ es) := by
  unfold mergeField
  rw [List.filter_append, List.filter_cons, List.filter_append]
  simp

theorem merge_skip_empty (xs ys : List NamingPatterns) :
    merge_naming_patterns (xs ++ ({} : NamingPatterns) :: ys) =
      merge_naming_patterns (xs ++ ys) := by
  unfold merge_naming_patterns
  simp only [List.map_append, List.map_cons]
  congr 1 <;> exact mergeField_skip_empty _ _

/-- Claim C8: a parse failure is file-local: the failing file's report has
its formatting profile computed from the raw text but empty naming and no
structural patterns; in a project it still appears (with its formatting) in
the python group's report list, while the naming merge is unchanged by its
presence, and all other files are processed as before. -/
theorem c8_parse_failure_local (pre post : List (String × PyContent)) (p : String)
    (c : PyContent) (hl : detect_language p = "python") (hp : c.parsed = none) :
    (analyze_file p c).naming = ({} : NamingPatterns) ∧
    (analyze_file p c).patterns = none ∧
    (analyze_file p c).formatting = analyze_formatting c.text ∧
    (reportsFor "python" (pre ++ (p, c) :: post)).map (fun r => r.formatting) =
      (reportsFor "python" pre).map (fun r => r.formatting) ++
        analyze_formatting c.text :: (reportsFor "python" post).map (fun r => r.formatting) ∧
    merge_naming_patterns
        ((reportsFor "python" (pre ++ (p, c) :: post)).map (fun r => r.naming)) =
      merge_naming_patterns ((reportsFor "python" (pre ++ post)).map (fun r => r.naming)) := by
  have hlang : (analyze_file p c).language = "python" := hl
  have h1 : (analyze_file p c).naming = ({} : NamingPatterns) := by
    show (if detect_language p = "python" then analyze_naming_python c.parsed else {}) =
      ({} : NamingPatterns)
    rw [if_pos hl, hp]
    rfl
  have h2 : (analyze_file p c).patterns = none := by
    show (if detect_language p = "python" then analyze_patterns_python c.parsed else none) =
      none
    rw [if_pos hl, hp]
    rfl
  have hsplit : reportsFor "python" (pre ++ (p, c) :: post) =
      reportsFor "python" pre ++ analyze_file p c :: reportsFor "python" post := by
    unfold reportsFor
    rw [List.map_append, List.map_cons, List.filter_append, List.filter_cons]
    simp [hlang]
  have hsplit2 : reportsFor "python" (pre ++ post) =
      reportsFor "python" pre ++ reportsFor "python" post := by
    unfold reportsFor
    rw [List.map_append, List.filter_append]
  refine ⟨h1, h2, rfl, ?_, ?_⟩
  · rw [hsplit, List.map_append, List.map_cons]
    rfl
  · rw [hsplit, hsplit2, List.map_append, List.map_cons, h1, List.map_append]
    exact merge_skip_empty _ _

/-- Claim C8 witness: a project with one good file and one unparseable
file; the failing file keeps a formatting profile, has empty naming and no
patterns, and leaves the naming merge as if absent. -/
theorem c8_witness :
    (analyze_file "bad.py" (⟨"def broken(:\n".toList, none⟩ : PyContent)).naming =
        ({} : NamingPatterns) ∧
    (analyze_file "bad.py" (⟨"def broken(:\n".toList, none⟩ : PyContent)).patterns = none ∧
    (analyze_file "bad.py" (⟨"def broken(:\n".toList, none⟩ : PyContent)).formatting =
      analyze_formatting "def broken(:\n".toList ∧
    (reportsFor "python"
        ([("a.py", ⟨"x = 1\n".toList, some [Stmt.assign [Target.name "x"]]⟩)] ++
          ("bad.py", (⟨"def broken(:\n".toList, none⟩ : PyContent)) :: [])).map
        (fun r => r.formatting) =
      (reportsFor "python"
          [("a.py", ⟨"x = 1\n".toList, some [Stmt.assign [Target.name "x"]]⟩)]).map
          (fun r => r.formatting) ++
        analyze_formatting "def broken(:\n".toList ::
          (reportsFor "python" ([] : List (String × PyContent))).map (fun r => r.formatting) ∧
    merge_naming_patterns
        ((reportsFor "python"
            ([("a.py", ⟨"x = 1\n".toList, some [Stmt.assign [Target.name "x"]]⟩)] ++
              ("bad.py", (⟨"def broken(:\n".toList, none⟩ : PyContent)) :: [])).map
          (fun r => r.naming)) =
      merge_naming_patterns
        ((reportsFor "python"
            ([("a.py", ⟨"x = 1\n".toList, some [Stmt.assign [Target.name "x"]]⟩)] ++
              ([] : List (String × PyContent)))).map (fun r => r.naming)) :=
  c8_parse_failure_local
    [("a.py", ⟨"x = 1\n".toList, some [Stmt.assign [Target.name "x"]]⟩)] []
    "bad.py" (⟨"def broken(:\n".toList, none⟩ : PyContent) (by decide) rfl
